import Mathlib

/-!
# Nonefinity SDK — verification of the streaming decoder and accumulator

Shallow embedding of the SDK's streaming pipeline:

* `processSSELineMain` — `NonefinityClient.processSSELine`
* `processSSELineSimple` — `NonefinitySimpleClient.processSSELine`
* `splitNN`, `streamStep`, `runStream` — the SSE buffer loop of
  `NonefinityClient.streamMessage`
* `decodeEventPayload`, `hookStep`, `runHook` — the event accumulator of
  `useNonefinityChat`
* `sendMessage` — the turn-level control flow of `useNonefinityChat.sendMessage`
* `requestModel` — `NonefinityClient.request`

Strings are modelled as `List Char` (the transport's incremental text decoder
makes byte-level chunking equivalent to character-level chunking, so stream
chunks are lists of characters).  JavaScript `JSON.parse` is modelled by the
executable recursive-descent function `jsonParse` over the JSON value type
`JVal`; engine-specific exception texts are modelled by fixed strings.
-/

/-- The newline character used by the SSE frame delimiter. -/
def NLC : Char := '\n'

/-- Left brace, written via its code point. -/
def lbrace : Char := Char.ofNat 123

/-- Right brace, written via its code point. -/
def rbrace : Char := Char.ofNat 125

/-- Whitespace for the JS `String.prototype.trim` model (ASCII core). -/
def isJsWs (c : Char) : Bool :=
  c = ' ' || c = '\t' || c = '\n' || c = '\r' || c = Char.ofNat 11 || c = Char.ofNat 12

/-- Model of JS `s.trim()`: drop whitespace from both ends. -/
def jsTrim (l : List Char) : List Char :=
  ((l.dropWhile isJsWs).reverse.dropWhile isJsWs).reverse

/-- Decimal rendering of a natural number, as in JS template interpolation
of `Date.now()`. -/
def digitChar (d : Nat) : Char := Char.ofNat (48 + d)

def natCharsAux : Nat → Nat → List Char
  | 0, _ => []
  | f + 1, n => if n < 10 then [digitChar n] else natCharsAux f (n / 10) ++ [digitChar (n % 10)]

def natChars (n : Nat) : List Char := natCharsAux (n + 1) n

/-- JSON values, the result type of the `JSON.parse` model. `jnull` stands for
the JS value `null`. -/
inductive JVal where
  | jnull : JVal
  | jbool : Bool → JVal
  | jnum : Int → JVal
  | jstr : List Char → JVal
  | jarr : List JVal → JVal
  | jobj : List (List Char × JVal) → JVal

/-- JS truthiness of a JSON value. -/
def jsTruthy : JVal → Bool
  | .jnull => false
  | .jbool b => b
  | .jnum n => n ≠ 0
  | .jstr s => s ≠ []
  | .jarr _ => true
  | .jobj _ => true

/-- Whether a JSON value is a string (JS `typeof v === "string"`). -/
def JVal.isStr : JVal → Bool
  | .jstr _ => true
  | _ => false

/-- Object field lookup.  `JSON.parse` keeps the last duplicate key, so the
lookup takes the last binding. -/
def objGet (fields : List (List Char × JVal)) (k : List Char) : Option JVal :=
  (fields.filterMap (fun p => if p.1 = k then some p.2 else none)).getLast?

/-- Property read `payloadRecord?.k` as used in the hook: defined (only) on
objects; arrays and primitives yield `undefined` (`none`), which matches the
optional-chaining reads performed there. -/
def pget (v : JVal) (k : List Char) : Option JVal :=
  match v with
  | .jobj f => objGet f k
  | _ => none

/-- JS `a || b` over an optional property value: keep the value when present
and truthy, otherwise fall back. -/
def jsOrOpt (o : Option JVal) (dflt : JVal) : JVal :=
  match o with
  | some v => if jsTruthy v then v else dflt
  | none => dflt

/-! ## JSON.parse model

An executable recursive-descent parser.  Supported: objects, arrays, strings
with the standard single-character escapes, integers, `true`/`false`/`null`,
and insignificant whitespace.  (`\uXXXX` escapes and fractional numbers are
not modelled; no claim depends on them.)  A `none` result models a thrown
`SyntaxError`. -/

def isJsonWs (c : Char) : Bool := c = ' ' || c = '\t' || c = '\n' || c = '\r'

def skipWs (l : List Char) : List Char := l.dropWhile isJsonWs

def unescapeChar (c : Char) : Option Char :=
  if c = '"' then some '"'
  else if c = '\\' then some '\\'
  else if c = '/' then some '/'
  else if c = 'n' then some '\n'
  else if c = 't' then some '\t'
  else if c = 'r' then some '\r'
  else if c = 'b' then some (Char.ofNat 8)
  else if c = 'f' then some (Char.ofNat 12)
  else none

/-- Parse the body of a JSON string literal (after the opening quote); returns
the decoded characters and the remainder after the closing quote. -/
def parseStringLit : List Char → Option (List Char × List Char)
  | [] => none
  | c :: rest =>
    if c = '"' then some ([], rest)
    else if c = '\\' then
      match rest with
      | [] => none
      | e :: rest2 =>
        match unescapeChar e with
        | some ch => (parseStringLit rest2).map (fun p => (ch :: p.1, p.2))
        | none => none
    else (parseStringLit rest).map (fun p => (c :: p.1, p.2))

def isDigitC (c : Char) : Bool := '0' ≤ c && c ≤ '9'

def digitsToNat (l : List Char) : Nat :=
  l.foldl (fun acc c => acc * 10 + (c.toNat - 48)) 0

/-- Parse a JSON integer (optional minus sign, digit run). -/
def parseIntLit (l : List Char) : Option (Int × List Char) :=
  match l with
  | '-' :: rest =>
    let ds := rest.takeWhile isDigitC
    if ds = [] then none else some (-(digitsToNat ds : Int), rest.dropWhile isDigitC)
  | _ =>
    let ds := l.takeWhile isDigitC
    if ds = [] then none else some ((digitsToNat ds : Int), l.dropWhile isDigitC)

mutual

def parseValue : Nat → List Char → Option (JVal × List Char)
  | 0, _ => none
  | fuel + 1, l =>
    match skipWs l with
    | [] => none
    | c :: rest =>
      if c = '"' then
        (parseStringLit rest).map (fun p => (.jstr p.1, p.2))
      else if c = lbrace then
        match skipWs rest with
        | d :: rest2 =>
          if d = rbrace then some (.jobj [], rest2)
          else (parseMembers fuel (skipWs rest)).map (fun p => (.jobj p.1, p.2))
        | [] => none
      else if c = '[' then
        match skipWs rest with
        | d :: rest2 =>
          if d = ']' then some (.jarr [], rest2)
          else (parseItems fuel (skipWs rest)).map (fun p => (.jarr p.1, p.2))
        | [] => none
      else if c = 't' then
        match rest with
        | 'r' :: 'u' :: 'e' :: rest2 => some (.jbool true, rest2)
        | _ => none
      else if c = 'f' then
        match rest with
        | 'a' :: 'l' :: 's' :: 'e' :: rest2 => some (.jbool false, rest2)
        | _ => none
      else if c = 'n' then
        match rest with
        | 'u' :: 'l' :: 'l' :: rest2 => some (.jnull, rest2)
        | _ => none
      else
        (parseIntLit (c :: rest)).map (fun p => (.jnum p.1, p.2))

/-- Parse `"key": value (, "key": value)* }` inside an object. -/
def parseMembers : Nat → List Char → Option (List (List Char × JVal) × List Char)
  | 0, _ => none
  | fuel + 1, l =>
    match skipWs l with
    | '"' :: rest =>
      match parseStringLit rest with
      | none => none
      | some (key, rest2) =>
        match skipWs rest2 with
        | ':' :: rest3 =>
          match parseValue fuel rest3 with
          | none => none
          | some (v, rest4) =>
            match skipWs rest4 with
            | ',' :: rest5 =>
              match parseMembers fuel rest5 with
              | none => none
              | some (fs, rest6) => some ((key, v) :: fs, rest6)
            | d :: rest5 =>
              if d = rbrace then some ([(key, v)], rest5) else none
            | [] => none
        | _ => none
    | _ => none

/-- Parse `value (, value)* ]` inside an array. -/
def parseItems : Nat → List Char → Option (List JVal × List Char)
  | 0, _ => none
  | fuel + 1, l =>
    match parseValue fuel l with
    | none => none
    | some (v, rest) =>
      match skipWs rest with
      | ',' :: rest2 =>
        match parseItems fuel rest2 with
        | none => none
        | some (vs, rest3) => some (v :: vs, rest3)
      | ']' :: rest2 => some ([v], rest2)
      | _ => none

end

/-- Model of `JSON.parse`: whole-input parse, rejecting trailing garbage. -/
def jsonParse (l : List Char) : Option JVal :=
  match parseValue (l.length + 1) l with
  | some (v, rest) => if skipWs rest = [] then some v else none
  | none => none

/-! ## Stream events and the SSE event-line parsers -/

/-- A decoded stream event: `{ event: string, data: any }`. -/
structure SEvent where
  event : List Char
  data : JVal

/-- Split on a single newline (used to model the `/m` multiline regexes). -/
def splitNl : List Char → List (List Char)
  | [] => [[]]
  | c :: rest => if c = NLC then [] :: splitNl rest else
      match splitNl rest with
      | [] => [[c]]
      | h :: t => (c :: h) :: t

/-- First line matching `^pre(.+)$`: the first line that starts with `pre`
and has a non-empty remainder; the capture is that remainder. -/
def captureAfter (pre : List Char) : List (List Char) → Option (List Char)
  | [] => none
  | l :: rest =>
    if pre.isPrefixOf l ∧ pre.length < l.length then some (l.drop pre.length)
    else captureAfter pre rest

/-- Capture of `/^event: (.+)$/m` on a frame. -/
def eventCapture (line : List Char) : Option (List Char) :=
  captureAfter "event: ".toList (splitNl line)

/-- Capture of `/^data: (.+)$/m` on a frame. -/
def dataCapture (line : List Char) : Option (List Char) :=
  captureAfter "data: ".toList (splitNl line)

/-- The frame's event name: the `event:` capture, defaulting to `"message"`. -/
def frameEventName (line : List Char) : List Char :=
  (eventCapture line).getD "message".toList

/-- The frame's data payload text, defaulting to `"\x7b\x7d"` (the two-character
brace string). -/
def frameDataStr (line : List Char) : List Char :=
  (dataCapture line).getD [lbrace, rbrace]

def startSentinel : List Char := "\"[START]\"".toList
def endSentinel : List Char := "\"[END]\"".toList

/-- `{ done: true }`. -/
def doneObj : JVal := .jobj [("done".toList, .jbool true)]

/-- Fixed text standing in for the engine-specific `String(e)` of a JSON
`SyntaxError` (the code only ever forwards this text, never inspects it). -/
def parseErrText : List Char := "SyntaxError: JSON parse failed".toList

/-- `{ raw: dataStr, parseError: String(e) }`. -/
def errShape (raw : List Char) : JVal :=
  .jobj [("raw".toList, .jstr raw), ("parseError".toList, .jstr parseErrText)]

/-- `NonefinityClient.processSSELine`, parameterized by the `JSON.parse`
function so that parse-independence of the sentinel branches is statable.
Returns the list of events handed to `onEvent` (`[]` or a singleton). -/
def processSSELineMain (jp : List Char → Option JVal) (line : List Char) : List SEvent :=
  if (eventCapture line).isSome || (dataCapture line).isSome then
    let eventType := frameEventName line
    let dataStr := frameDataStr line
    if jsTrim dataStr = startSentinel then [⟨"start".toList, .jobj []⟩]
    else if jsTrim dataStr = endSentinel then [⟨eventType, doneObj⟩]
    else
      match jp dataStr with
      | some v => [⟨eventType, v⟩]
      | none => [⟨eventType, errShape dataStr⟩]
  else []

/-- The simplified client's event-name normalization: `ai_result` frames are
renamed to `message` before any payload handling. -/
def simpleNorm (n : List Char) : List Char :=
  if n = "ai_result".toList then "message".toList else n

/-- Fixed text standing in for the engine-specific `TypeError` thrown by a
property read on `null`. -/
def typeErrText : List Char := "TypeError: cannot read properties of null".toList

/-- The `data.model?.messages` extraction path of the simplified parser:
requires an array, takes the last element's truthy `content`.  Property reads
here are all optional-chained or on objects, so they cannot throw. -/
def extractFromModel (v : JVal) : Option JVal :=
  match pget v "model".toList with
  | some m =>
    match pget m "messages".toList with
    | some (.jarr ms) =>
      match ms.getLast? with
      | some lm =>
        match pget lm "content".toList with
        | some c => if jsTruthy c then some c else none
        | none => none
      | none => none
    | _ => none
  | none => none

/-- Content extraction of `NonefinitySimpleClient.processSSELine`:
`data.content` when truthy, else the last message of `data.model.messages`.
A `.error` result models the `TypeError` thrown when `data` is `null`. -/
def extractContent (v : JVal) : Except (List Char) (Option JVal) :=
  match v with
  | .jnull => .error typeErrText
  | _ =>
    match pget v "content".toList with
    | some c =>
      if jsTruthy c then .ok (some c)
      else .ok (extractFromModel v)
    | none => .ok (extractFromModel v)

/-- `{ raw: dataStr, parseError: String(e) }` with the `TypeError` text. -/
def typeErrShape (raw : List Char) : JVal :=
  .jobj [("raw".toList, .jstr raw), ("parseError".toList, .jstr typeErrText)]

/-- Delivery step of the simplified parser after the (up to two) JSON parses:
wrap extracted content, or deliver the value unchanged; a thrown `TypeError`
falls into the surrounding catch and yields the error-shaped event. -/
def simpleDeliver (dataStr : List Char) (eventType : List Char) (v : JVal) : SEvent :=
  match extractContent v with
  | .error _ => ⟨eventType, typeErrShape dataStr⟩
  | .ok (some c) => ⟨eventType, .jobj [("content".toList, c), ("raw".toList, v)]⟩
  | .ok none => ⟨eventType, v⟩

/-- `NonefinitySimpleClient.processSSELine`, parameterized by `JSON.parse`. -/
def processSSELineSimple (jp : List Char → Option JVal) (line : List Char) : List SEvent :=
  if (eventCapture line).isSome || (dataCapture line).isSome then
    let eventType := simpleNorm (frameEventName line)
    let dataStr := frameDataStr line
    if jsTrim dataStr = startSentinel then [⟨"start".toList, .jobj []⟩]
    else if jsTrim dataStr = endSentinel then [⟨eventType, doneObj⟩]
    else
      match jp dataStr with
      | none => [⟨eventType, errShape dataStr⟩]
      | some v0 =>
        let v := match v0 with
          | .jstr s =>
            match jp s with
            | some v1 => v1
            | none => .jstr s
          | _ => v0
        [simpleDeliver dataStr eventType v]
  else []

/-! ## The hook's payload decoder (`decodeEventPayload` in the hook file) -/

/-- The `looksLikeJSON` test on a trimmed non-empty string. -/
def looksLikeJson (t : List Char) : Bool :=
  match t.head?, t.getLast? with
  | some f, some l =>
    (f = lbrace && l = rbrace) || (f = '[' && l = ']') || (f = '"' && l = '"')
  | _, _ => false

/-- The `while (typeof current === "string" && attempts < 2)` loop; fuel is
consumed exactly on successful parses, matching `attempts`. -/
def decodeLoop : Nat → JVal → JVal
  | 0, cur => cur
  | n + 1, cur =>
    match cur with
    | .jstr s =>
      let t := jsTrim s
      if t = [] then .jstr []
      else if ¬ looksLikeJson t then .jstr t
      else
        match jsonParse t with
        | some v => decodeLoop n v
        | none => .jstr t
    | other => other

/-- `decodeEventPayload`: non-strings pass through; strings get at most two
JSON parses. -/
def decodeEventPayload (v : JVal) : JVal :=
  match v with
  | .jstr _ => decodeLoop 2 v
  | other => other

/-! ## The stream loop of `NonefinityClient.streamMessage`

`buffer.split("\n\n")` is modelled by `splitNN`, a leftmost, non-overlapping
split on the two-character delimiter. -/

/-- Prepend a character to the first part of a split result. -/
def consHead (a : Char) : List (List Char) → List (List Char)
  | [] => [[a]]
  | h :: t => (a :: h) :: t

/-- `s.split("\n\n")`: leftmost, non-overlapping split on two consecutive
newlines. -/
def splitNN : List Char → List (List Char)
  | [] => [[]]
  | [a] => [[a]]
  | a :: b :: rest =>
    if a = NLC ∧ b = NLC then [] :: splitNN rest
    else consHead a (splitNN (b :: rest))

/-- Last element of a split result (`lines.pop() || ""`). -/
def lastD (d : List Char) : List (List Char) → List Char
  | [] => d
  | [x] => x
  | _ :: y :: t => lastD d (y :: t)

/-- Emit the decoded events of a run of complete frames, skipping frames that
are whitespace-only (`if (line.trim())`). -/
def emitFrames (jp : List Char → Option JVal) : List (List Char) → List SEvent
  | [] => []
  | f :: fs => (if jsTrim f ≠ [] then processSSELineMain jp f else []) ++ emitFrames jp fs

/-- State of the read loop: events emitted so far and the retained buffer. -/
structure StreamSt where
  out : List SEvent
  buf : List Char

/-- One iteration of the read loop on a decoded text chunk: append to the
buffer, split on the frame delimiter, retain the last element, emit the
rest. -/
def streamStep (jp : List Char → Option JVal) (st : StreamSt) (chunk : List Char) : StreamSt :=
  ⟨st.out ++ emitFrames jp (splitNN (st.buf ++ chunk)).dropLast,
    lastD [] (splitNN (st.buf ++ chunk))⟩

/-- `processSSEBuffer`: split the remainder, drop whitespace-only pieces,
process the rest (the remainder never contains the delimiter, so the split is
the identity, but the code splits again and we follow it). -/
def flushBuffer (jp : List Char → Option JVal) (buf : List Char) : List SEvent :=
  if jsTrim buf ≠ [] then emitFrames jp (splitNN buf) else []

/-- The whole stream loop over the arriving chunks, including the final
flush of a non-empty trimmed remainder. -/
def runStream (jp : List Char → Option JVal) (chunks : List (List Char)) : List SEvent :=
  (chunks.foldl (streamStep jp) ⟨[], []⟩).out ++
    flushBuffer jp (chunks.foldl (streamStep jp) ⟨[], []⟩).buf

/-- Concatenation of the chunks (the full response body). -/
def joinL : List (List Char) → List Char
  | [] => []
  | x :: xs => x ++ joinL xs

/-! ## The hook accumulator (`useNonefinityChat`)

Timestamps (`Date.now()`) are explicit inputs: the event at position `i` of a
run is processed at time `clock i`.  Field extraction of `name`/`id` follows
the declared event interfaces (`string`-typed), so JS string coercion of
non-string names is not modelled; no claim exercises it. -/

/-- Lifecycle values of the live tool map (`ToolCall.state`). -/
inductive LState where
  | inputStreaming
  | inputAvailable
  | outputAvailable
  | outputError
deriving DecidableEq

/-- One entry of the live tool map (`ToolCall` in the hook). -/
structure LiveTool where
  id : List Char
  name : List Char
  args : JVal
  state : LState
  content : Option JVal

/-- One entry of the local `accumulatedTools` array. -/
structure AccTool where
  id : List Char
  name : List Char
  args : Option JVal
  result : Option (List Char)

/-- React state visible outside the hook. -/
structure ChatMsg where
  role : List Char
  content : List Char
  tools : Option (List (List Char × Option JVal × Option (List Char)))

structure ChatState where
  messages : List ChatMsg
  input : List Char
  isStreaming : Bool
  isThinking : Bool
  liveContent : List Char
  liveTools : List (List Char × LiveTool)
  errorMessage : Option JVal

/-- The state threaded through one streaming turn: React state plus the local
`accumulatedContent` / `accumulatedTools` variables. -/
structure TurnState where
  chat : ChatState
  accContent : List Char
  accTools : List AccTool

/-- `${toolName}-${Date.now()}`. -/
def synthId (name : List Char) (t : Nat) : List Char := name ++ '-' :: natChars t

/-- `payloadRecord?.name || "unknown"` (with `name` string-typed). -/
def toolNameOfP (p : JVal) : List Char :=
  match pget p "name".toList with
  | some (.jstr s) => if s = [] then "unknown".toList else s
  | _ => "unknown".toList

/-- `payloadRecord?.arguments || \x7b\x7d`. -/
def toolArgsOfP (p : JVal) : JVal :=
  match pget p "arguments".toList with
  | some v => if jsTruthy v then v else .jobj []
  | none => .jobj []

/-- `payloadRecord?.id || synthesized` in the `tool_calls` branch. -/
def toolCallIdOfP (p : JVal) (now : Nat) : List Char :=
  match pget p "id".toList with
  | some (.jstr s) => if s = [] then synthId (toolNameOfP p) now else s
  | _ => synthId (toolNameOfP p) now

/-- `payloadRecord?.id` in the `tool_result` branch (empty string behaves as
absent through the later truthiness tests). -/
def resIncomingIdOfP (p : JVal) : Option (List Char) :=
  match pget p "id".toList with
  | some (.jstr s) => if s = [] then none else some s
  | _ => none

/-- Nullish coalescing step: `null` falls through like `undefined`. -/
def nullish (o : Option JVal) : Option JVal :=
  match o with
  | some .jnull => none
  | x => x

/-- `payloadRecord?.result ?? payloadRecord?.content ?? ""`. -/
def toolContentOfP (p : JVal) : JVal :=
  match nullish (pget p "result".toList) with
  | some v => v
  | none =>
    match nullish (pget p "content".toList) with
    | some v => v
    | none => .jstr []

/-- `JSON.stringify` on the values produced by `jsonParse` (standard escapes
only, mirroring the parser's supported subset). -/
def escapeChar (c : Char) : List Char :=
  if c = '"' then ['\\', '"']
  else if c = '\\' then ['\\', '\\']
  else if c = '\n' then ['\\', 'n']
  else if c = '\t' then ['\\', 't']
  else if c = '\r' then ['\\', 'r']
  else [c]

def escapeChars (l : List Char) : List Char :=
  match l with
  | [] => []
  | c :: rest => escapeChar c ++ escapeChars rest

def intChars (n : Int) : List Char :=
  if n < 0 then '-' :: natChars n.natAbs else natChars n.natAbs

mutual

def jsonStringify : JVal → List Char
  | .jnull => "null".toList
  | .jbool true => "true".toList
  | .jbool false => "false".toList
  | .jnum n => intChars n
  | .jstr s => '"' :: escapeChars s ++ ['"']
  | .jarr vs => '[' :: stringifyItems vs ++ [']']
  | .jobj fs => lbrace :: stringifyFields fs ++ [rbrace]

def stringifyItems : List JVal → List Char
  | [] => []
  | [v] => jsonStringify v
  | v :: rest => jsonStringify v ++ ',' :: stringifyItems rest

def stringifyFields : List (List Char × JVal) → List Char
  | [] => []
  | [(k, v)] => '"' :: escapeChars k ++ '"' :: ':' :: jsonStringify v
  | (k, v) :: rest =>
    '"' :: escapeChars k ++ '"' :: ':' :: jsonStringify v ++ ',' :: stringifyFields rest

end

/-- `typeof toolContent === "string" ? toolContent : JSON.stringify(toolContent)`. -/
def contentToSaveOfP (p : JVal) : List Char :=
  match toolContentOfP p with
  | .jstr s => s
  | v => jsonStringify v

/-- `Array.prototype.findIndex`. -/
def findIdxA (p : α → Bool) : List α → Option Nat
  | [] => none
  | a :: l => if p a then some 0 else (findIdxA p l).map (· + 1)

/-- Set the `result` of the entry at an index (`accumulatedTools[idx].result = c`). -/
def setResultAt : List AccTool → Nat → List Char → List AccTool
  | [], _, _ => []
  | a :: l, 0, c => ⟨a.id, a.name, a.args, some c⟩ :: l
  | a :: l, i + 1, c => a :: setResultAt l i c

/-- JS `Map.has`. -/
def mapHas (m : List (List Char × LiveTool)) (k : List Char) : Bool :=
  m.any (fun e => e.1 = k)

/-- JS `Map.get`. -/
def mapGet (m : List (List Char × LiveTool)) (k : List Char) : Option LiveTool :=
  (m.find? (fun e => e.1 = k)).map (·.2)

/-- JS `Map.set`: replace in place when the key exists, else append
(insertion order is preserved). -/
def mapSet (m : List (List Char × LiveTool)) (k : List Char) (v : LiveTool) :
    List (List Char × LiveTool) :=
  match m with
  | [] => [(k, v)]
  | e :: rest => if e.1 = k then (k, v) :: rest else e :: mapSet rest k v

/-- First key of the live map whose entry satisfies the test, in insertion
order (the `for (const [id, tool] of newTools.entries())` search). -/
def firstKeyWhere (m : List (List Char × LiveTool)) (q : LiveTool → Bool) :
    Option (List Char) :=
  match m with
  | [] => none
  | e :: rest => if q e.2 then some e.1 else firstKeyWhere rest q

/-- `accumulatedTools` update of the `tool_calls` branch: unconditional push. -/
def accApplyToolCall (acc : List AccTool) (p : JVal) (now : Nat) : List AccTool :=
  acc ++ [⟨toolCallIdOfP p now, toolNameOfP p, some (toolArgsOfP p), none⟩]

/-- Live-map update of the `tool_calls` branch: insert only when the id is new. -/
def liveApplyToolCall (live : List (List Char × LiveTool)) (p : JVal) (now : Nat) :
    List (List Char × LiveTool) :=
  let incomingId := toolCallIdOfP p now
  if mapHas live incomingId then live
  else mapSet live incomingId ⟨incomingId, toolNameOfP p, toolArgsOfP p, .inputAvailable, none⟩

/-- Live-map update of the `tool_result` branch: explicit id when present in
the map, else the first same-name entry still `input-available`, else a
synthesized id; the chosen entry becomes `output-available`. -/
def liveApplyToolResult (live : List (List Char × LiveTool)) (p : JVal) (now : Nat) :
    List (List Char × LiveTool) :=
  let toolName := toolNameOfP p
  let toolContent := toolContentOfP p
  let incomingId := resIncomingIdOfP p
  let tid0 : List Char :=
    match incomingId with
    | some k => if mapHas live k then k else []
    | none => []
  let tid1 : List Char :=
    if tid0 = [] then
      match firstKeyWhere live (fun t => t.name = toolName && t.state = .inputAvailable) with
      | some k => k
      | none => []
    else tid0
  let tid := if tid1 = [] then synthId toolName now else tid1
  let args : JVal :=
    match mapGet live tid with
    | some t => if jsTruthy t.args then t.args else .jobj []
    | none => .jobj []
  mapSet live tid ⟨tid, toolName, args, .outputAvailable, some toolContent⟩

/-- `accumulatedTools` update of the `tool_result` branch: `findIndex` by
explicit id when present, else by name (regardless of resolution state); on a
miss, push a new already-resolved entry. -/
def accApplyToolResult (acc : List AccTool) (p : JVal) (now : Nat) : List AccTool :=
  let toolName := toolNameOfP p
  let incomingId := resIncomingIdOfP p
  let c := contentToSaveOfP p
  match findIdxA (fun t =>
      match incomingId with
      | some k => decide (t.id = k)
      | none => decide (t.name = toolName)) acc with
  | some i => setResultAt acc i c
  | none =>
    acc ++ [⟨(match incomingId with | some k => k | none => synthId toolName now),
            toolName, none, some c⟩]

/-- `typeof payload === "string" ? payload : payloadRecord?.content || ""`
(with `content` string-typed). -/
def aiContentOfP (payload : JVal) : List Char :=
  match payload with
  | .jstr s => s
  | _ =>
    match pget payload "content".toList with
    | some (.jstr s) => s
    | _ => []

/-- `payloadRecord?.is_delta === true`. -/
def aiIsDeltaP (payload : JVal) : Bool :=
  match pget payload "is_delta".toList with
  | some (.jbool true) => true
  | _ => false

/-- `payloadRecord?.done === true`. -/
def doneFlagP (payload : JVal) : Bool :=
  match pget payload "done".toList with
  | some (.jbool true) => true
  | _ => false

/-- The per-event callback of `useNonefinityChat.sendMessage`, folded into
explicit state.  `now` is the value `Date.now()` would return while this
event is processed. -/
def hookStep (ts : TurnState) (ev : SEvent) (now : Nat) : TurnState :=
  let payload := decodeEventPayload ev.data
  if ev.event = "error".toList then
    let errMsg : JVal :=
      match payload with
      | .jstr s => .jstr s
      | _ => jsOrOpt (pget payload "message".toList) (.jstr "An error occurred".toList)
    { ts with chat := { ts.chat with
        errorMessage := some errMsg, isStreaming := false, isThinking := false } }
  else if ev.event = "start".toList then
    { ts with chat := { ts.chat with
        liveContent := [], liveTools := [], isStreaming := true, isThinking := true } }
  else
    let ts1 :=
      if ev.event = "tool_calls".toList then
        { ts with
          chat := { ts.chat with
            isThinking := false
            liveTools := liveApplyToolCall ts.chat.liveTools payload now }
          accTools := accApplyToolCall ts.accTools payload now }
      else if ev.event = "tool_result".toList ∨ ev.event = "tool_results".toList then
        { ts with
          chat := { ts.chat with
            liveTools := liveApplyToolResult ts.chat.liveTools payload now }
          accTools := accApplyToolResult ts.accTools payload now }
      else if ev.event = "ai_result".toList then
        let c := aiContentOfP payload
        if c = [] then ts
        else
          let newContent := if aiIsDeltaP payload then ts.accContent ++ c else c
          { ts with
            chat := { ts.chat with isThinking := false, liveContent := newContent }
            accContent := newContent }
      else ts
    if doneFlagP payload then
      { ts1 with chat := { ts1.chat with isStreaming := false } }
    else ts1

/-- Fold the callback over the events of one turn; the event at position `i`
is processed at time `clock i`. -/
def runHookAux (clock : Nat → Nat) : Nat → TurnState → List SEvent → TurnState
  | _, ts, [] => ts
  | i, ts, e :: es => runHookAux clock (i + 1) (hookStep ts e (clock i)) es

/-- The state set up just before streaming begins (lines 131–139 of the hook). -/
def freshTurn (st : ChatState) (userText : List Char) : TurnState :=
  ⟨{ st with
      messages := st.messages ++ [⟨"user".toList, userText, none⟩]
      input := []
      isStreaming := true
      isThinking := true
      liveContent := []
      liveTools := []
      errorMessage := none },
    [], []⟩

/-- Process a completed event stream into a fresh accumulator instance. -/
def runHook (events : List SEvent) (clock : Nat → Nat) : TurnState :=
  runHookAux clock 0 (freshTurn ⟨[], [], false, false, [], [], none⟩ []) events

/-- The finalized turn's observable value: assistant text plus the ordered
`(name, arguments, result)` triples (`accumulatedTools.map` drops the id). -/
def turnProj (ts : TurnState) : List Char × List (List Char × Option JVal × Option (List Char)) :=
  (ts.accContent, ts.accTools.map (fun t => (t.name, t.args, t.result)))

/-! ## `NonefinityClient.request`

The fetch outcome is an oracle input; `response.json()` failing to parse is
`body = none`.  A `.error` inside `requestInner` is a thrown JS exception; the
surrounding `try/catch` turns every one of them into an envelope, so
`requestModel` is total. -/

inductive FetchOutcome where
  | netErr : List Char → FetchOutcome
  | resp : Bool → Option JVal → FetchOutcome

/-- Fixed text standing in for the message of the error thrown by a failed
`response.json()`. -/
def jsonRejectText : List Char := "SyntaxError: unexpected end of JSON input".toList

/-- Property read `data.k` (not optional-chained): throws a `TypeError` on
`null`, yields `undefined` on other non-objects. -/
def jsGet (v : JVal) (k : List Char) : Except (List Char) (Option JVal) :=
  match v with
  | .jnull => .error typeErrText
  | .jobj f => .ok (objGet f k)
  | _ => .ok none

/-- The body of the `try` block of `request`. `tok` models
`await this.getToken()` (a caller-supplied provider may throw). -/
def requestInner (tok : Except (List Char) (Option (List Char))) (fetch : FetchOutcome) :
    Except (List Char) JVal := do
  let _t ← tok
  match fetch with
  | .netErr m => throw m
  | .resp ok body =>
    match body with
    | none => throw jsonRejectText
    | some data =>
      if ok = false then do
        let m ← jsGet data "message".toList
        let d ← jsGet data "detail".toList
        pure (.jobj [("success".toList, .jbool false),
                     ("error".toList, jsOrOpt m (jsOrOpt d (.jstr "Request failed".toList)))])
      else do
        let s ← jsGet data "success".toList
        match s with
        | some _ => pure data
        | none => do
          let dd ← jsGet data "data".toList
          match dd with
          | some dv => do
            let m ← jsGet data "message".toList
            pure (.jobj ([("success".toList, .jbool true), ("data".toList, dv)] ++
                  (match m with | some mv => [("message".toList, mv)] | none => [])))
          | none => pure (.jobj [("success".toList, .jbool true), ("data".toList, data)])

/-- `request` with its surrounding catch: never throws, always returns an
envelope-shaped value (the `data.success !== undefined` branch returns the
server object unchanged). -/
def requestModel (tok : Except (List Char) (Option (List Char))) (fetch : FetchOutcome) : JVal :=
  match requestInner tok fetch with
  | .ok v => v
  | .error m => .jobj [("success".toList, .jbool false), ("error".toList, .jstr m)]

/-- The fetch outcomes the claim calls failures: network failure, unparseable
body, non-2xx status. -/
def failureCase : FetchOutcome → Bool
  | .netErr _ => true
  | .resp _ none => true
  | .resp false _ => true
  | _ => false

/-! ## `useNonefinityChat.sendMessage`

Oracles: the decoded events the stream delivers (any transport-error event the
client synthesizes is part of this list), whether `streamMessage` ultimately
rejects (`streamThrow`), and the token/fetch outcome of the save call.  The
`temp-…` message ids and ISO timestamps are presentation-only and omitted from
`ChatMsg`. -/

/-- `messageContent || input` followed by the guard
`!contentToSend.trim() || isStreaming || !clientRef.current`. -/
def contentToSendOf (st : ChatState) (mc : Option (List Char)) : List Char :=
  match mc with
  | some s => if s = [] then st.input else s
  | none => st.input

def sendGuard (st : ChatState) (mc : Option (List Char)) (hasClient : Bool) : Bool :=
  !(jsTrim (contentToSendOf st mc)).isEmpty && !st.isStreaming && hasClient

/-- The assistant message appended at stream end (`tools` drops the ids). -/
def assistantMsgOf (ts : TurnState) : ChatMsg :=
  ⟨"assistant".toList, ts.accContent,
    some (ts.accTools.map (fun t => (t.name, t.args, t.result)))⟩

/-- The `finally` block: spinners off, streaming scratch state reset. -/
def finallyReset (st : ChatState) : ChatState :=
  { st with isStreaming := false, isThinking := false, liveContent := [], liveTools := [] }

/-- `useNonefinityChat.sendMessage`.  Returns the final React state together
with the number of `streamMessage` HTTP requests issued and the number of
`saveConversation` calls attempted. -/
def sendMessage (st : ChatState) (mc : Option (List Char)) (hasClient : Bool)
    (events : List SEvent) (clock : Nat → Nat) (streamThrow : Option (List Char))
    (saveTok : Except (List Char) (Option (List Char))) (saveFetch : FetchOutcome) :
    ChatState × Nat × Nat :=
  if sendGuard st mc hasClient then
    let ts := runHookAux clock 0 (freshTurn st (contentToSendOf st mc)) events
    match streamThrow with
    | some m =>
      -- the transport rejected: catch sets the error message, finally resets
      (finallyReset { ts.chat with errorMessage := some (.jstr m) }, 1, 0)
    | none =>
      if ts.accContent ≠ [] then
        -- append the assistant turn, then attempt the save; its envelope is
        -- bound to no variable in the source and is discarded here likewise
        let _saved := requestModel saveTok saveFetch
        (finallyReset { ts.chat with
            messages := ts.chat.messages ++ [assistantMsgOf ts] }, 1, 1)
      else
        (finallyReset ts.chat, 1, 0)
  else (st, 0, 0)

/-! ## Support definitions for the idempotence analysis (claim about two runs
of the same stream under different `Date.now()` sequences) -/

/-- Event names handled by the `tool_result` branch. -/
def isToolResultName (n : List Char) : Bool :=
  n = "tool_result".toList || n = "tool_results".toList

/-- All explicit ids carried by the `tool_result` events of a stream. -/
def resultIds (evs : List SEvent) : List (List Char) :=
  evs.filterMap (fun e =>
    if isToolResultName e.event then resIncomingIdOfP (decodeEventPayload e.data) else none)

/-- The tool name an event's payload extracts to. -/
def eventToolName (e : SEvent) : List Char := toolNameOfP (decodeEventPayload e.data)

/-- Relation between the `accumulatedTools` entries of two runs of the same
stream: identical except possibly in synthesized ids, which agree on
membership in the distinguished id set `K`. -/
def accTwin (K : List (List Char)) (a b : AccTool) : Prop :=
  a.name = b.name ∧ a.args = b.args ∧ a.result = b.result ∧ ∀ k ∈ K, (a.id = k ↔ b.id = k)

/-- The effect of one event on the pair
(`accumulatedContent`, `accumulatedTools`) alone, extracted from `hookStep`
(proved to agree with it in `hookStep_accFields`). -/
def stepAcc (st : List Char × List AccTool) (e : SEvent) (now : Nat) :
    List Char × List AccTool :=
  let payload := decodeEventPayload e.data
  if e.event = "error".toList then st
  else if e.event = "start".toList then st
  else if e.event = "tool_calls".toList then (st.1, accApplyToolCall st.2 payload now)
  else if e.event = "tool_result".toList ∨ e.event = "tool_results".toList then
    (st.1, accApplyToolResult st.2 payload now)
  else if e.event = "ai_result".toList then
    (if aiContentOfP payload = [] then st.1
     else if aiIsDeltaP payload then st.1 ++ aiContentOfP payload else aiContentOfP payload,
     st.2)
  else st

/-! ## Concrete fixtures used by witnesses and counterexamples -/

/-- `ai_result` frame payload `(content := "hi", is_delta := false)`. -/
def evHiW : SEvent :=
  ⟨"ai_result".toList, .jobj [("content".toList, .jstr "hi".toList), ("is_delta".toList, .jbool false)]⟩

/-- `ai_result` frame payload `(content := " there", is_delta := true)`. -/
def evThereW : SEvent :=
  ⟨"ai_result".toList, .jobj [("content".toList, .jstr " there".toList), ("is_delta".toList, .jbool true)]⟩

/-- A non-delta `ai_result` whose content is empty. -/
def evEmptyW : SEvent :=
  ⟨"ai_result".toList, .jobj [("content".toList, .jstr []), ("is_delta".toList, .jbool false)]⟩

/-- A `tool_calls` event for `search` with no id. -/
def tcSearchW : SEvent := ⟨"tool_calls".toList, .jobj [("name".toList, .jstr "search".toList)]⟩

/-- A `tool_result` event for `search` with no id. -/
def trSearchW (r : List Char) : SEvent :=
  ⟨"tool_result".toList, .jobj [("name".toList, .jstr "search".toList), ("result".toList, .jstr r)]⟩

/-- Two id-less `search` calls followed by two id-less results, timestamps
`0, 1, 2, 3`. -/
def c2Run : TurnState :=
  runHook [tcSearchW, tcSearchW, trSearchW "r1".toList, trSearchW "r2".toList] (fun i => i)

def startFrameW : List Char := "event: weird\ndata: \"[START]\"".toList
def endFrameW : List Char := "event: ai_result\ndata: \"[END]\"".toList

/-- A frame whose payload is a doubly JSON-encoded object. -/
def dblFrameW : List Char := "data: \"\x7b\\\"a\\\":1\x7d\"".toList

/-- A frame whose payload is a JSON string that is not itself valid JSON. -/
def strFrameW : List Char := "data: \"hello\"".toList

/-- A frame whose data payload is not valid JSON. -/
def badFrameW : List Char := "event: ai_result\ndata: oops".toList

def stFreshW : ChatState := ⟨[], [], false, false, [], [], none⟩
def evOkW : SEvent := ⟨"ai_result".toList, .jobj [("content".toList, .jstr "ok".toList)]⟩

/-- A failing save-conversation fetch outcome (non-2xx with a message body). -/
def saveFailW : FetchOutcome := .resp false (some (.jobj [("message".toList, .jstr "boom".toList)]))

/-- A successful save-conversation fetch outcome. -/
def saveOkW : FetchOutcome := .resp true (some (.jobj [("success".toList, .jbool true)]))

/-- A state in which a previous stream is still active. -/
def stBusyW : ChatState := ⟨[], "hi".toList, true, false, [], [], none⟩

/-- A non-2xx response whose `message` field is the number 5. -/
def badMsgBodyW : FetchOutcome := .resp false (some (.jobj [("message".toList, .jnum 5)]))

/-- A two-frame SSE body without a trailing delimiter. -/
def bodyW : List Char := "event: a\ndata: 1\n\nevent: b\ndata: 2".toList

/-- A call/result pair with no explicit ids anywhere. -/
def c8wEvents : List SEvent := [tcSearchW, trSearchW "r".toList]

def tcAW : SEvent := ⟨"tool_calls".toList, .jobj [("name".toList, .jstr "a".toList)]⟩

/-- A `tool_result` whose explicit id has the shape of a synthesized id. -/
def trAW : SEvent :=
  ⟨"tool_result".toList,
    .jobj [("name".toList, .jstr "a".toList), ("id".toList, .jstr "a-5".toList),
           ("result".toList, .jstr "r".toList)]⟩

/-- Content, then an id-less call, then a result whose explicit id `a-5`
collides with the id run 1 synthesizes at time 5. -/
def c8Events : List SEvent := [evHiW, tcAW, trAW]

/-! ## Helper lemmas: the frame splitter -/

theorem consHead_ne_nil (a : Char) (l : List (List Char)) : consHead a l ≠ [] := by
  cases l <;> simp [consHead]

theorem splitNN_ne_nil (l : List Char) : splitNN l ≠ [] := by
  induction l using splitNN.induct with
  | case1 => simp [splitNN]
  | case2 a => simp [splitNN]
  | case3 a b rest h ih => simp [splitNN, h]
  | case4 a b rest h ih => simpa [splitNN, h] using consHead_ne_nil a _


theorem splitNN_cons_of (a : Char) (l : List Char) (h : ¬(a = NLC ∧ l.head? = some NLC)) :
    splitNN (a :: l) = consHead a (splitNN l) := by
  cases l with
  | nil => simp [splitNN, consHead]
  | cons b rest =>
    have h' : ¬(a = NLC ∧ b = NLC) := by
      intro ⟨h1, h2⟩; exact h ⟨h1, by simp [h2]⟩
    simp [splitNN, h']

theorem splitNN_singleton_head (b : Char) (l : List Char) (h0 : List Char)
    (h : splitNN (b :: l) = [h0]) : ∃ t, h0 = b :: t := by
  cases l with
  | nil =>
    simp [splitNN] at h
    exact ⟨[], h.symm⟩
  | cons c rest =>
    by_cases hd : b = NLC ∧ c = NLC
    · simp [splitNN, hd] at h
      exact absurd h.2 (splitNN_ne_nil rest)
    · simp only [splitNN, if_neg hd] at h
      cases hm : splitNN (c :: rest) with
      | nil => exact absurd hm (splitNN_ne_nil _)
      | cons m mt =>
        rw [hm] at h
        simp [consHead] at h
        exact ⟨m, h.1.symm⟩

theorem splitNN_append (s c : List Char) :
    splitNN (s ++ c) = (splitNN s).dropLast ++ splitNN (lastD [] (splitNN s) ++ c) := by
  induction s using splitNN.induct with
  | case1 => simp [splitNN, lastD]
  | case2 a => simp [splitNN, lastD]
  | case3 a b rest h ih =>
    obtain ⟨rfl, rfl⟩ := h
    cases hm : splitNN rest with
    | nil => exact absurd hm (splitNN_ne_nil _)
    | cons m mt =>
      simp only [List.cons_append, splitNN, and_self, if_true, hm] at ih ⊢
      cases mt with
      | nil => simpa [lastD] using ih
      | cons m2 mt2 => simpa [lastD] using ih
  | case4 a b rest h ih =>
    have hcons : splitNN (a :: b :: rest) = consHead a (splitNN (b :: rest)) := by
      simp [splitNN, if_neg h]
    have hconsc : splitNN (a :: b :: (rest ++ c)) = consHead a (splitNN (b :: (rest ++ c))) := by
      simp [splitNN, if_neg h]
    simp only [List.cons_append] at ih ⊢
    rw [hconsc, hcons, ih]
    cases hm : splitNN (b :: rest) with
    | nil => exact absurd hm (splitNN_ne_nil _)
    | cons m mt =>
      cases mt with
      | nil =>
        obtain ⟨t', rfl⟩ := splitNN_singleton_head b rest m hm
        have hstep : splitNN (a :: b :: (t' ++ c)) = consHead a (splitNN (b :: (t' ++ c))) := by
          simp [splitNN, if_neg h]
        simp only [hm, lastD, List.dropLast, List.nil_append, consHead, List.cons_append, hstep]
      | cons m2 mt2 =>
        simp only [hm, lastD, List.dropLast, consHead, List.cons_append, List.append_assoc]

theorem dropLast_append_lastD (l : List (List Char)) (h : l ≠ []) :
    l.dropLast ++ [lastD [] l] = l := by
  induction l with
  | nil => exact absurd rfl h
  | cons x t ih =>
    cases t with
    | nil => simp [lastD, List.dropLast]
    | cons y t2 =>
      simp only [lastD, List.dropLast, List.cons_append]
      rw [ih (by simp)]

theorem splitNN_lastD (s : List Char) :
    splitNN (lastD [] (splitNN s)) = [lastD [] (splitNN s)] := by
  have h := splitNN_append s []
  rw [List.append_nil, List.append_nil] at h
  have h2 := dropLast_append_lastD (splitNN s) (splitNN_ne_nil s)
  exact (List.append_cancel_left (h2.trans h)).symm

theorem emitFrames_append (jp : List Char → Option JVal) (a b : List (List Char)) :
    emitFrames jp (a ++ b) = emitFrames jp a ++ emitFrames jp b := by
  induction a with
  | nil => simp [emitFrames]
  | cons f fs ih => simp [emitFrames, ih]

theorem lastD_append_right (d : List Char) (a b : List (List Char)) (h : b ≠ []) :
    lastD d (a ++ b) = lastD d b := by
  induction a with
  | nil => rfl
  | cons x t ih =>
    cases t with
    | nil => cases b with
      | nil => exact absurd rfl h
      | cons y t2 => simp [lastD, ih]
    | cons y t2 => simp [lastD] at ih ⊢; exact ih

theorem streamStep_comp (jp : List Char → Option JVal) (st : StreamSt) (c1 c2 : List Char) :
    streamStep jp (streamStep jp st c1) c2 = streamStep jp st (c1 ++ c2) := by
  unfold streamStep
  dsimp only
  have hne := splitNN_ne_nil (lastD [] (splitNN (st.buf ++ c1)) ++ c2)
  rw [← List.append_assoc, splitNN_append (st.buf ++ c1) c2,
    List.dropLast_append_of_ne_nil _ hne, lastD_append_right _ _ _ hne,
    emitFrames_append, List.append_assoc]

theorem streamStep_nil (jp : List Char → Option JVal) (st : StreamSt)
    (h : splitNN st.buf = [st.buf]) : streamStep jp st [] = st := by
  unfold streamStep
  rw [List.append_nil, h]
  cases st
  simp [emitFrames, lastD]

theorem foldl_streamStep (jp : List Char → Option JVal) (chunks : List (List Char)) :
    ∀ st : StreamSt, splitNN st.buf = [st.buf] →
      chunks.foldl (streamStep jp) st = streamStep jp st (joinL chunks) := by
  induction chunks with
  | nil =>
    intro st h
    simpa [joinL] using (streamStep_nil jp st h).symm
  | cons c cs ih =>
    intro st h
    simp only [List.foldl_cons, joinL]
    rw [ih (streamStep jp st c) (splitNN_lastD (st.buf ++ c)), streamStep_comp]

/-! ## Helper lemmas: two runs of the accumulator -/

theorem hookStep_accFields (ts : TurnState) (e : SEvent) (now : Nat) :
    ((hookStep ts e now).accContent, (hookStep ts e now).accTools) =
      stepAcc (ts.accContent, ts.accTools) e now := by
  unfold hookStep stepAcc
  dsimp only
  split_ifs <;> rfl

theorem findIdxA_congr {R : AccTool → AccTool → Prop} (p q : AccTool → Bool)
    (hpq : ∀ a b, R a b → p a = q b) :
    ∀ {l₁ l₂ : List AccTool}, List.Forall₂ R l₁ l₂ → findIdxA p l₁ = findIdxA q l₂ := by
  intro l₁ l₂ h
  induction h with
  | nil => rfl
  | cons hab _ ih => simp only [findIdxA, hpq _ _ hab, ih]

theorem setResultAt_twin (K : List (List Char)) (c : List Char) :
    ∀ {l₁ l₂ : List AccTool}, List.Forall₂ (accTwin K) l₁ l₂ →
      ∀ i, List.Forall₂ (accTwin K) (setResultAt l₁ i c) (setResultAt l₂ i c) := by
  intro l₁ l₂ h
  induction h with
  | nil => intro i; exact List.Forall₂.nil
  | cons hab hrest ih =>
    intro i
    cases i with
    | zero =>
      exact List.Forall₂.cons ⟨hab.1, hab.2.1, rfl, hab.2.2.2⟩ hrest
    | succ j =>
      exact List.Forall₂.cons hab (ih j)

theorem accToolCall_twin (K : List (List Char)) (p : JVal) (t₁ t₂ : Nat)
    {l₁ l₂ : List AccTool} (h : List.Forall₂ (accTwin K) l₁ l₂)
    (hs : ∀ k ∈ K, k ≠ synthId (toolNameOfP p) t₁ ∧ k ≠ synthId (toolNameOfP p) t₂) :
    List.Forall₂ (accTwin K) (accApplyToolCall l₁ p t₁) (accApplyToolCall l₂ p t₂) := by
  refine List.rel_append h (List.Forall₂.cons ⟨rfl, rfl, rfl, ?_⟩ List.Forall₂.nil)
  intro k hk
  unfold toolCallIdOfP
  cases hpg : pget p "id".toList with
  | none =>
    constructor
    · intro h1; exact absurd h1.symm (hs k hk).1
    · intro h2; exact absurd h2.symm (hs k hk).2
  | some v =>
    cases v with
    | jstr s =>
      by_cases hse : s = []
      · simp only [hse, if_pos rfl]
        constructor
        · intro h1; exact absurd h1.symm (hs k hk).1
        · intro h2; exact absurd h2.symm (hs k hk).2
      · simp only [if_neg hse]
    | jnull =>
      constructor
      · intro h1; exact absurd h1.symm (hs k hk).1
      · intro h2; exact absurd h2.symm (hs k hk).2
    | jbool b =>
      constructor
      · intro h1; exact absurd h1.symm (hs k hk).1
      · intro h2; exact absurd h2.symm (hs k hk).2
    | jnum n =>
      constructor
      · intro h1; exact absurd h1.symm (hs k hk).1
      · intro h2; exact absurd h2.symm (hs k hk).2
    | jarr a =>
      constructor
      · intro h1; exact absurd h1.symm (hs k hk).1
      · intro h2; exact absurd h2.symm (hs k hk).2
    | jobj f =>
      constructor
      · intro h1; exact absurd h1.symm (hs k hk).1
      · intro h2; exact absurd h2.symm (hs k hk).2

theorem ne_symm_iff {k a b : List Char} (h1 : k ≠ a) (h2 : k ≠ b) : (a = k ↔ b = k) :=
  ⟨fun h => absurd h.symm h1, fun h => absurd h.symm h2⟩

theorem accToolResult_twin (K : List (List Char)) (p : JVal) (t₁ t₂ : Nat)
    {l₁ l₂ : List AccTool} (h : List.Forall₂ (accTwin K) l₁ l₂)
    (hs : ∀ k ∈ K, k ≠ synthId (toolNameOfP p) t₁ ∧ k ≠ synthId (toolNameOfP p) t₂)
    (hin : ∀ k, resIncomingIdOfP p = some k → k ∈ K) :
    List.Forall₂ (accTwin K) (accApplyToolResult l₁ p t₁) (accApplyToolResult l₂ p t₂) := by
  unfold accApplyToolResult
  dsimp only
  cases hinc : resIncomingIdOfP p with
  | some k =>
    have hkK : k ∈ K := hin k hinc
    have hfind := findIdxA_congr (R := accTwin K)
      (fun t => decide (t.id = k)) (fun t => decide (t.id = k))
      (fun a b hab => by
        have := hab.2.2.2 k hkK
        simp only [decide_eq_decide]
        exact this) h
    rw [hfind]
    cases findIdxA (fun t => decide (t.id = k)) l₂ with
    | some i => exact setResultAt_twin K _ h i
    | none =>
      exact List.rel_append h
        (List.Forall₂.cons ⟨rfl, rfl, rfl, fun k' _ => Iff.rfl⟩ List.Forall₂.nil)
  | none =>
    have hfind := findIdxA_congr (R := accTwin K)
      (fun t => decide (t.name = toolNameOfP p)) (fun t => decide (t.name = toolNameOfP p))
      (fun a b hab => by
        simp only [decide_eq_decide]
        rw [hab.1]) h
    rw [hfind]
    cases findIdxA (fun t => decide (t.name = toolNameOfP p)) l₂ with
    | some i => exact setResultAt_twin K _ h i
    | none =>
      refine List.rel_append h
        (List.Forall₂.cons ⟨rfl, rfl, rfl, fun k hk => ?_⟩ List.Forall₂.nil)
      exact ne_symm_iff (hs k hk).1 (hs k hk).2

theorem stepAcc_twin (K : List (List Char)) (e : SEvent) (t₁ t₂ : Nat)
    (p₁ p₂ : List Char × List AccTool)
    (hc : p₁.1 = p₂.1) (ht : List.Forall₂ (accTwin K) p₁.2 p₂.2)
    (hK : isToolResultName e.event = true →
      ∀ k, resIncomingIdOfP (decodeEventPayload e.data) = some k → k ∈ K)
    (hs : ∀ k ∈ K, k ≠ synthId (eventToolName e) t₁ ∧ k ≠ synthId (eventToolName e) t₂) :
    (stepAcc p₁ e t₁).1 = (stepAcc p₂ e t₂).1 ∧
      List.Forall₂ (accTwin K) (stepAcc p₁ e t₁).2 (stepAcc p₂ e t₂).2 := by
  have hs' : ∀ k ∈ K, k ≠ synthId (toolNameOfP (decodeEventPayload e.data)) t₁ ∧
      k ≠ synthId (toolNameOfP (decodeEventPayload e.data)) t₂ := hs
  unfold stepAcc
  dsimp only
  split_ifs with h1 h2 h3 h4 h5 h6 h7
  · exact ⟨hc, ht⟩
  · exact ⟨hc, ht⟩
  · exact ⟨hc, accToolCall_twin K _ t₁ t₂ ht hs'⟩
  · refine ⟨hc, accToolResult_twin K _ t₁ t₂ ht hs' (fun k hk => hK ?_ k hk)⟩
    unfold isToolResultName
    rcases h4 with h | h <;> simp [h]
  · exact ⟨hc, ht⟩
  · exact ⟨by dsimp only; rw [hc], ht⟩
  · exact ⟨rfl, ht⟩
  · exact ⟨hc, ht⟩

theorem runHookAux_twin (K : List (List Char)) (evs : List SEvent) :
    ∀ (i₁ i₂ : Nat) (c₁ c₂ : Nat → Nat) (ts₁ ts₂ : TurnState),
      ts₁.accContent = ts₂.accContent →
      List.Forall₂ (accTwin K) ts₁.accTools ts₂.accTools →
      (∀ e ∈ evs, isToolResultName e.event = true →
        ∀ k, resIncomingIdOfP (decodeEventPayload e.data) = some k → k ∈ K) →
      (∀ e ∈ evs, ∀ k ∈ K,
        (∀ j, k ≠ synthId (eventToolName e) (c₁ j)) ∧
        (∀ j, k ≠ synthId (eventToolName e) (c₂ j))) →
      (runHookAux c₁ i₁ ts₁ evs).accContent = (runHookAux c₂ i₂ ts₂ evs).accContent ∧
        List.Forall₂ (accTwin K) (runHookAux c₁ i₁ ts₁ evs).accTools
          (runHookAux c₂ i₂ ts₂ evs).accTools := by
  induction evs with
  | nil =>
    intro i₁ i₂ c₁ c₂ ts₁ ts₂ hc ht _ _
    exact ⟨hc, ht⟩
  | cons e es ih =>
    intro i₁ i₂ c₁ c₂ ts₁ ts₂ hc ht hK hs
    have hstep := stepAcc_twin K e (c₁ i₁) (c₂ i₂)
      (ts₁.accContent, ts₁.accTools) (ts₂.accContent, ts₂.accTools) hc ht
      (hK e (List.mem_cons_self e es))
      (fun k hk =>
        ⟨(hs e (List.mem_cons_self e es) k hk).1 i₁, (hs e (List.mem_cons_self e es) k hk).2 i₂⟩)
    have hf₁ := hookStep_accFields ts₁ e (c₁ i₁)
    have hf₂ := hookStep_accFields ts₂ e (c₂ i₂)
    have hcon : (hookStep ts₁ e (c₁ i₁)).accContent = (hookStep ts₂ e (c₂ i₂)).accContent := by
      have a1 := congrArg Prod.fst hf₁
      have a2 := congrArg Prod.fst hf₂
      simp only at a1 a2
      rw [a1, a2]; exact hstep.1
    have htool : List.Forall₂ (accTwin K) (hookStep ts₁ e (c₁ i₁)).accTools
        (hookStep ts₂ e (c₂ i₂)).accTools := by
      have a1 := congrArg Prod.snd hf₁
      have a2 := congrArg Prod.snd hf₂
      simp only at a1 a2
      rw [a1, a2]; exact hstep.2
    simp only [runHookAux]
    exact ih (i₁ + 1) (i₂ + 1) c₁ c₂ _ _ hcon htool
      (fun e' he' => hK e' (List.mem_cons_of_mem e he'))
      (fun e' he' => hs e' (List.mem_cons_of_mem e he'))

theorem forall₂_map_triple {K : List (List Char)} {l₁ l₂ : List AccTool}
    (h : List.Forall₂ (accTwin K) l₁ l₂) :
    l₁.map (fun t => (t.name, t.args, t.result)) = l₂.map (fun t => (t.name, t.args, t.result)) := by
  induction h with
  | nil => rfl
  | cons hab _ ih =>
    simp only [List.map_cons, ih, hab.1, hab.2.1, hab.2.2.1]

/-! ## Claim theorems -/

/-- C1 (amended): for every `ai_result` event, when the extracted content is
empty the accumulated content is unchanged; otherwise a delta event appends
the content and a non-delta event replaces the accumulated content wholesale.
(The claim as stated — every non-delta event replaces wholesale — fails on
empty content; see the counterexample.) -/
theorem aiResultStepLaw (ts : TurnState) (ev : SEvent) (t : Nat)
    (h : ev.event = "ai_result".toList) :
    (hookStep ts ev t).accContent =
      (if aiContentOfP (decodeEventPayload ev.data) = [] then ts.accContent
       else if aiIsDeltaP (decodeEventPayload ev.data) then
         ts.accContent ++ aiContentOfP (decodeEventPayload ev.data)
       else aiContentOfP (decodeEventPayload ev.data)) := by
  have hf := congrArg Prod.fst (hookStep_accFields ts ev t)
  simp only at hf
  rw [hf]
  unfold stepAcc
  dsimp only
  rw [h, if_neg (by decide), if_neg (by decide), if_neg (by decide), if_neg (by decide),
    if_pos rfl]

/-- Witness for C1: the claim's own round-trip — a non-delta `"hi"` followed
by a delta `" there"` accumulates to `"hi there"`. -/
theorem aiResultStepLawWitness :
    (hookStep (hookStep (runHook [] (fun _ => 0)) evHiW 0) evThereW 1).accContent
      = "hi there".toList := by
  rw [aiResultStepLaw _ _ _ rfl, aiResultStepLaw _ _ _ rfl]
  decide

/-- Counterexample for C1 as stated: a non-delta `ai_result` with empty
content does not replace the accumulated content wholesale — after
`content := "hi"` it leaves `"hi"` in place instead of producing `""`. -/
theorem aiResultEmptyNonDeltaKeepsContent :
    (runHook [evHiW, evEmptyW] (fun _ => 0)).accContent = "hi".toList ∧
    "hi".toList ≠ ([] : List Char) := ⟨rfl, by decide⟩

/-- C2 (amended): in the two-id-less-calls / two-id-less-results scenario the
live tool map pairs FIFO — the first result resolves `search-0`, the second
resolves `search-1` — but the finalized `accumulatedTools` list matches each
id-less result to the first same-name entry regardless of its state, so the
second result overwrites the first entry's result and the second entry keeps
none. -/
theorem toolPairingScenario :
    c2Run.chat.liveTools.map (fun e => (e.1, e.2.state, e.2.content)) =
      [("search-0".toList, LState.outputAvailable, some (JVal.jstr "r1".toList)),
       ("search-1".toList, LState.outputAvailable, some (JVal.jstr "r2".toList))] ∧
    c2Run.accTools.map (fun t => (t.name, t.result)) =
      [("search".toList, some "r2".toList), ("search".toList, none)] := ⟨rfl, rfl⟩

/-- Counterexample for C2 as stated: FIFO pairing would yield results
`[r1, r2]` in the finalized list, but the code yields `[r2, none]`. -/
theorem toolResultsListNotFifo :
    c2Run.accTools.map (fun t => t.result) = [some "r2".toList, none] ∧
    [some "r2".toList, none] ≠ [some "r1".toList, some "r2".toList] := ⟨rfl, by decide⟩

/-- C3 (amended): a frame whose trimmed payload is the quoted literal
`[START]` yields `start` with empty data in both parsers, regardless of the
declared event name; a quoted `[END]` payload yields `done: true` under the
frame's own event name in the main client, but under the normalized name
(`ai_result` renamed to `message`) in the simplified client.  Both outcomes
are independent of the JSON parse function — no parse is attempted. -/
theorem sentinelHandling (jp jp' : List Char → Option JVal) (line d : List Char)
    (hd : dataCapture line = some d) :
    (jsTrim d = startSentinel →
      processSSELineMain jp line = [⟨"start".toList, .jobj []⟩] ∧
      processSSELineSimple jp line = [⟨"start".toList, .jobj []⟩]) ∧
    (jsTrim d = endSentinel →
      processSSELineMain jp line = [⟨frameEventName line, doneObj⟩] ∧
      processSSELineSimple jp line = [⟨simpleNorm (frameEventName line), doneObj⟩] ∧
      processSSELineMain jp line = processSSELineMain jp' line ∧
      processSSELineSimple jp line = processSSELineSimple jp' line) := by
  have hds : frameDataStr line = d := by unfold frameDataStr; rw [hd]; rfl
  have hOr : ((eventCapture line).isSome || (dataCapture line).isSome) = true := by
    rw [hd]; simp
  constructor
  · intro hs
    unfold processSSELineMain processSSELineSimple
    rw [hOr]
    simp only [if_true, hds, hs, if_pos rfl]
    exact ⟨trivial, trivial⟩
  · intro he
    have hne : jsTrim d ≠ startSentinel := by rw [he]; decide
    unfold processSSELineMain processSSELineSimple
    rw [hOr]
    simp only [if_true, hds, he, if_neg hne, if_pos rfl]
    refine ⟨?_, ?_, ?_, ?_⟩ <;> trivial

/-- Witness for C3: a `[START]` frame named `weird` yields `start`, and an
`[END]` frame named `ai_result` keeps its name in the main client but is
renamed to `message` by the simplified client. -/
theorem sentinelHandlingWitness :
    processSSELineMain jsonParse startFrameW = [⟨"start".toList, .jobj []⟩] ∧
    processSSELineMain jsonParse endFrameW = [⟨"ai_result".toList, doneObj⟩] ∧
    processSSELineSimple jsonParse endFrameW = [⟨"message".toList, doneObj⟩] := by
  refine ⟨((sentinelHandling jsonParse (fun _ => none) startFrameW
      "\"[START]\"".toList rfl).1 (by decide)).1, ?_, ?_⟩
  · exact ((sentinelHandling jsonParse (fun _ => none) endFrameW
      "\"[END]\"".toList rfl).2 (by decide)).1
  · exact ((sentinelHandling jsonParse (fun _ => none) endFrameW
      "\"[END]\"".toList rfl).2 (by decide)).2.1

/-- Counterexample for C3 as stated: an `[END]` frame declared `ai_result`
is emitted by the simplified client under the name `message`, not under the
frame's own event name. -/
theorem endSentinelNormalizedName :
    frameEventName endFrameW = "ai_result".toList ∧
    processSSELineSimple jsonParse endFrameW = [⟨"message".toList, doneObj⟩] ∧
    "message".toList ≠ "ai_result".toList := ⟨rfl, rfl, by decide⟩

/-- C4: when the first parse of a (non-sentinel) payload yields a string, the
simplified event-line parser attempts a second JSON parse on that string; a
successful second parse delivers the re-parsed value, and a failed second
parse is not an error — the event delivers the string itself, not an
error-shaped payload. -/
theorem doubleEncodedPayloadHandling (jp : List Char → Option JVal) (line d s : List Char)
    (hd : dataCapture line = some d)
    (h1 : jsTrim d ≠ startSentinel) (h2 : jsTrim d ≠ endSentinel)
    (hp : jp d = some (.jstr s)) :
    processSSELineSimple jp line =
      [match jp s with
       | some v1 => simpleDeliver d (simpleNorm (frameEventName line)) v1
       | none => ⟨simpleNorm (frameEventName line), .jstr s⟩] := by
  have hds : frameDataStr line = d := by unfold frameDataStr; rw [hd]; rfl
  have hOr : ((eventCapture line).isSome || (dataCapture line).isSome) = true := by
    rw [hd]; simp
  unfold processSSELineSimple
  rw [hOr]
  simp only [if_true, hds, if_neg h1, if_neg h2, hp]
  cases hq : jp s with
  | some v1 => rfl
  | none => rfl

/-- Witness for C4: a doubly-encoded object payload is decoded to the inner
object, and a string payload that is not valid JSON is kept and delivered. -/
theorem doubleEncodedPayloadHandlingWitness :
    processSSELineSimple jsonParse dblFrameW =
      [⟨"message".toList, .jobj [("a".toList, .jnum 1)]⟩] ∧
    processSSELineSimple jsonParse strFrameW = [⟨"message".toList, .jstr "hello".toList⟩] := by
  constructor
  · exact (doubleEncodedPayloadHandling jsonParse dblFrameW "\"\x7b\\\"a\\\":1\x7d\"".toList
      "\x7b\"a\":1\x7d".toList rfl (by decide) (by decide) rfl).trans rfl
  · exact (doubleEncodedPayloadHandling jsonParse strFrameW "\"hello\"".toList
      "hello".toList rfl (by decide) (by decide) rfl).trans rfl

/-- C5 (amended): a frame whose data payload is not valid JSON (and is not a
sentinel) yields exactly one event, delivered under the frame's own event
name (not under the `error` kind), whose data carries the raw unparsed text
and a parse-failure description; the parser is total, so no exception
reaches the caller. -/
theorem malformedDataOneEvent (jp : List Char → Option JVal) (line d : List Char)
    (hd : dataCapture line = some d)
    (h1 : jsTrim d ≠ startSentinel) (h2 : jsTrim d ≠ endSentinel)
    (hp : jp d = none) :
    processSSELineMain jp line = [⟨frameEventName line, errShape d⟩] := by
  have hds : frameDataStr line = d := by unfold frameDataStr; rw [hd]; rfl
  have hOr : ((eventCapture line).isSome || (dataCapture line).isSome) = true := by
    rw [hd]; simp
  unfold processSSELineMain
  rw [hOr]
  simp only [if_true, hds, if_neg h1, if_neg h2, hp]

/-- Witness for C5: the frame `event: ai_result` / `data: oops` yields exactly
one raw-text event. -/
theorem malformedDataOneEventWitness :
    jsonParse "oops".toList = none ∧
    processSSELineMain jsonParse badFrameW = [⟨"ai_result".toList, errShape "oops".toList⟩] :=
  ⟨rfl, (malformedDataOneEvent jsonParse badFrameW "oops".toList rfl
    (by decide) (by decide) rfl).trans rfl⟩

/-- Counterexample for C5 as stated: the malformed-data event carries the
frame's own event name `ai_result`, which is not the `error` kind. -/
theorem malformedEventKeepsFrameName :
    processSSELineMain jsonParse badFrameW = [⟨"ai_result".toList, errShape "oops".toList⟩] ∧
    "ai_result".toList ≠ "error".toList := ⟨rfl, by decide⟩

/-- C6 (amended): the turn is finalized and exactly one save-conversation
call is attempted iff the guard passed, the transport did not throw, and the
accumulated content is non-empty (a transport exception suppresses the save
even with content present); the save's token and fetch outcome influence
nothing — its failure envelope is discarded, never surfaced, never retried —
and on the save path the appended assistant message and the error slot are
exactly those of the accumulator, unaffected by the save. -/
theorem persistenceCallBehavior (st : ChatState) (mc : Option (List Char)) (hc : Bool)
    (events : List SEvent) (clock : Nat → Nat) (th : Option (List Char))
    (tok tok' : Except (List Char) (Option (List Char))) (s s' : FetchOutcome) :
    sendMessage st mc hc events clock th tok s = sendMessage st mc hc events clock th tok' s' ∧
    (sendMessage st mc hc events clock th tok s).2.2 =
      (if sendGuard st mc hc = true ∧ th = none ∧
          (runHookAux clock 0 (freshTurn st (contentToSendOf st mc)) events).accContent ≠ []
       then 1 else 0) ∧
    (sendGuard st mc hc = true → th = none →
      (runHookAux clock 0 (freshTurn st (contentToSendOf st mc)) events).accContent ≠ [] →
      (sendMessage st mc hc events clock th tok s).1.messages =
        (runHookAux clock 0 (freshTurn st (contentToSendOf st mc)) events).chat.messages ++
          [assistantMsgOf (runHookAux clock 0 (freshTurn st (contentToSendOf st mc)) events)] ∧
      (sendMessage st mc hc events clock th tok s).1.errorMessage =
        (runHookAux clock 0 (freshTurn st (contentToSendOf st mc)) events).chat.errorMessage) := by
  unfold sendMessage
  by_cases hg : sendGuard st mc hc = true
  · rw [if_pos hg]
    cases th with
    | some m =>
      refine ⟨rfl, ?_, fun _ hth => absurd hth (by simp)⟩
      rw [if_neg (by simp)]
    | none =>
      by_cases hcnt :
          (runHookAux clock 0 (freshTurn st (contentToSendOf st mc)) events).accContent ≠ []
      · simp only [if_pos hcnt]
        refine ⟨trivial, ?_, fun _ _ _ => ⟨rfl, rfl⟩⟩
        rw [if_pos ⟨hg, trivial, hcnt⟩]
      · simp only [if_neg hcnt]
        refine ⟨trivial, ?_, fun _ _ h3 => absurd h3 hcnt⟩
        rw [if_neg (by intro h'; exact hcnt h'.2.2)]
  · rw [if_neg hg]
    refine ⟨rfl, ?_, fun h1 => absurd h1 hg⟩
    rw [if_neg (by intro h'; exact hg h'.1)]

/-- Witness for C6: a completed turn with content `"ok"` attempts exactly one
save call, and the outcome is the same whether the save fails or succeeds. -/
theorem persistenceCallBehaviorWitness :
    (sendMessage stFreshW (some "hello".toList) true [evOkW] (fun _ => 0) none
        (.ok none) saveFailW).2.2 = 1 ∧
    sendMessage stFreshW (some "hello".toList) true [evOkW] (fun _ => 0) none
        (.ok none) saveFailW =
      sendMessage stFreshW (some "hello".toList) true [evOkW] (fun _ => 0) none
        (.ok none) saveOkW := by
  constructor
  · exact (persistenceCallBehavior stFreshW (some "hello".toList) true [evOkW] (fun _ => 0)
      none (.ok none) (.ok none) saveFailW saveFailW).2.1.trans (by decide)
  · exact (persistenceCallBehavior stFreshW (some "hello".toList) true [evOkW] (fun _ => 0)
      none (.ok none) (.ok none) saveFailW saveOkW).1

/-- Counterexample for C6 as stated: after a failing save the error slot stays
`none` (the failure is not surfaced through the error channel), and a
transport exception with non-empty accumulated content attempts zero save
calls (refuting the if-and-only-if). -/
theorem persistenceFailureSilentlyIgnored :
    (sendMessage stFreshW (some "hello".toList) true [evOkW] (fun _ => 0) none
        (.ok none) saveFailW).2.2 = 1 ∧
    (sendMessage stFreshW (some "hello".toList) true [evOkW] (fun _ => 0) none
        (.ok none) saveFailW).1.errorMessage = none ∧
    (sendMessage stFreshW (some "hello".toList) true [evOkW] (fun _ => 0)
        (some "net down".toList) (.ok none) saveFailW).2.2 = 0 := ⟨rfl, rfl, rfl⟩

/-- C7: the decoded event sequence of the stream loop depends only on the
concatenation of the arriving chunks — any two chunkings of the same SSE body
produce the same events, with no complete frame dropped or reordered, for
every JSON parse function. -/
theorem chunkingInvariance (jp : List Char → Option JVal) (ch1 ch2 : List (List Char))
    (h : joinL ch1 = joinL ch2) : runStream jp ch1 = runStream jp ch2 := by
  unfold runStream
  rw [foldl_streamStep jp ch1 ⟨[], []⟩ rfl, foldl_streamStep jp ch2 ⟨[], []⟩ rfl, h]

/-- Witness for C7: splitting a two-frame body in the middle of the first
frame yields the same decoded events as delivering it whole. -/
theorem chunkingInvarianceWitness :
    joinL [bodyW.take 5, bodyW.drop 5] = joinL [bodyW] ∧
    runStream jsonParse [bodyW.take 5, bodyW.drop 5] = runStream jsonParse [bodyW] :=
  ⟨by simp [joinL], chunkingInvariance jsonParse _ _ (by simp [joinL])⟩

/-- C8 (amended): two runs of the same completed event stream under different
`Date.now()` sequences produce the same finalized assistant text and the same
ordered (name, arguments, result) triples, provided no explicit id carried by
a `tool_result` event coincides with a timestamp-synthesized id
(`name-timestamp`) of either run.  (Without that proviso the claim fails; see
the counterexample.) -/
theorem turnProjectionTimestampStable (evs : List SEvent) (c₁ c₂ : Nat → Nat)
    (h : ∀ k ∈ resultIds evs, ∀ e ∈ evs,
      (∀ j, k ≠ synthId (eventToolName e) (c₁ j)) ∧
      (∀ j, k ≠ synthId (eventToolName e) (c₂ j))) :
    turnProj (runHook evs c₁) = turnProj (runHook evs c₂) := by
  have hK : ∀ e ∈ evs, isToolResultName e.event = true →
      ∀ k, resIncomingIdOfP (decodeEventPayload e.data) = some k → k ∈ resultIds evs := by
    intro e he htr k hk
    unfold resultIds
    rw [List.mem_filterMap]
    exact ⟨e, he, by rw [if_pos htr]; exact hk⟩
  have hmain := runHookAux_twin (resultIds evs) evs 0 0 c₁ c₂
    (freshTurn ⟨[], [], false, false, [], [], none⟩ [])
    (freshTurn ⟨[], [], false, false, [], [], none⟩ [])
    rfl (by unfold freshTurn; exact List.Forall₂.nil) hK
    (fun e he k hk => h k hk e he)
  unfold turnProj runHook
  rw [(hmain).1, forall₂_map_triple (hmain).2]

/-- Witness for C8: a stream whose tool events carry no explicit ids yields
the same finalized turn at timestamps `1,1,…` and `2,2,…`. -/
theorem turnProjectionTimestampStableWitness :
    turnProj (runHook c8wEvents (fun _ => 1)) = turnProj (runHook c8wEvents (fun _ => 2)) := by
  apply turnProjectionTimestampStable
  intro k hk
  rw [show resultIds c8wEvents = [] from rfl] at hk
  exact absurd hk (List.not_mem_nil k)

/-- Counterexample for C8 as stated: when a `tool_result` carries the explicit
id `a-5`, a run clocked at 5 pairs it with the synthesized call id `a-5`
(one triple), while a run clocked at 6 misses and appends a second entry
(two triples) — the finalized turns differ. -/
theorem turnProjectionTimestampSensitive :
    (turnProj (runHook c8Events (fun _ => 5))).2.length = 1 ∧
    (turnProj (runHook c8Events (fun _ => 6))).2.length = 2 ∧
    turnProj (runHook c8Events (fun _ => 5)) ≠ turnProj (runHook c8Events (fun _ => 6)) :=
  ⟨rfl, rfl, fun h => absurd (congrArg (fun q => q.2.length) h) (by decide)⟩

/-- C9: while a previous stream is active (`isStreaming` true), a new send
request is rejected before doing anything: the state is returned unchanged,
no HTTP stream request is issued, and no save call is attempted. -/
theorem busySendRejected (st : ChatState) (mc : Option (List Char)) (hc : Bool)
    (events : List SEvent) (clock : Nat → Nat) (th : Option (List Char))
    (tok : Except (List Char) (Option (List Char))) (sf : FetchOutcome)
    (h : st.isStreaming = true) :
    sendMessage st mc hc events clock th tok sf = (st, 0, 0) := by
  unfold sendMessage sendGuard
  rw [h]
  simp

/-- Witness for C9: a concrete busy state rejects a new send unchanged. -/
theorem busySendRejectedWitness :
    stBusyW.isStreaming = true ∧
    sendMessage stBusyW (some "hello".toList) true [evOkW] (fun _ => 0) none
      (.ok none) saveOkW = (stBusyW, 0, 0) :=
  ⟨rfl, busySendRejected _ _ _ _ _ _ _ _ rfl⟩

/-- C10 (amended): for every token outcome and every failing fetch outcome
(network failure, unparseable body, non-2xx status), `request` returns an
envelope with `success` false and an `error` field present — it never throws
(the model is total by construction of the surrounding catch); on a network
failure with a resolvable token the error is exactly the failure message.
The error value is a string except when a non-2xx body's truthy non-string
`message`/`detail` is passed through (see the counterexample). -/
theorem requestFailureEnvelope (tok : Except (List Char) (Option (List Char)))
    (fetch : FetchOutcome) (h : failureCase fetch = true) :
    pget (requestModel tok fetch) "success".toList = some (.jbool false) ∧
    (∃ e, pget (requestModel tok fetch) "error".toList = some e) ∧
    (∀ m t, fetch = .netErr m → tok = .ok t →
      pget (requestModel tok fetch) "error".toList = some (.jstr m)) := by
  cases fetch with
  | netErr m =>
    cases tok with
    | ok t =>
      refine ⟨rfl, ⟨_, rfl⟩, fun m' t' hm ht => ?_⟩
      injection hm with hm'
      subst hm'
      rfl
    | error tm =>
      refine ⟨rfl, ⟨_, rfl⟩, fun m' t' hm ht => ?_⟩
      cases ht
  | resp ok body =>
    cases body with
    | none =>
      cases tok with
      | ok t => exact ⟨rfl, ⟨_, rfl⟩, fun m' t' hm ht => by cases hm⟩
      | error tm => exact ⟨rfl, ⟨_, rfl⟩, fun m' t' hm ht => by cases hm⟩
    | some data =>
      cases ok with
      | true => simp [failureCase] at h
      | false =>
        cases tok with
        | error tm => exact ⟨rfl, ⟨_, rfl⟩, fun m' t' hm ht => by cases hm⟩
        | ok t =>
          cases data with
          | jnull => exact ⟨rfl, ⟨_, rfl⟩, fun m' t' hm ht => by cases hm⟩
          | jbool b => exact ⟨rfl, ⟨_, rfl⟩, fun m' t' hm ht => by cases hm⟩
          | jnum n => exact ⟨rfl, ⟨_, rfl⟩, fun m' t' hm ht => by cases hm⟩
          | jstr s => exact ⟨rfl, ⟨_, rfl⟩, fun m' t' hm ht => by cases hm⟩
          | jarr a => exact ⟨rfl, ⟨_, rfl⟩, fun m' t' hm ht => by cases hm⟩
          | jobj f => exact ⟨rfl, ⟨_, rfl⟩, fun m' t' hm ht => by cases hm⟩

/-- Witness for C10: a network failure produces a non-throwing envelope with
`success` false and the failure message as the error string. -/
theorem requestFailureEnvelopeWitness :
    failureCase (.netErr "network down".toList) = true ∧
    pget (requestModel (.ok none) (.netErr "network down".toList)) "success".toList =
      some (.jbool false) ∧
    pget (requestModel (.ok none) (.netErr "network down".toList)) "error".toList =
      some (.jstr "network down".toList) :=
  ⟨rfl, (requestFailureEnvelope (.ok none) (.netErr "network down".toList) rfl).1,
    (requestFailureEnvelope (.ok none) (.netErr "network down".toList) rfl).2.2 _ none rfl rfl⟩

/-- Counterexample for C10 as stated: a non-2xx response whose `message` field
is the number 5 yields an envelope whose error value is that number, not a
string. -/
theorem requestErrorValueNotString :
    pget (requestModel (.ok none) badMsgBodyW) "success".toList = some (.jbool false) ∧
    pget (requestModel (.ok none) badMsgBodyW) "error".toList = some (.jnum 5) ∧
    JVal.isStr (.jnum 5) = false := ⟨rfl, rfl, rfl⟩
